import Mathlib

/-!
Shallow embedding of the `reinfors` game-tree evaluation engine.

The Rust source is embedded as executable Lean definitions:

* `src/game_state.rs` — error type, `Player`, `WinDrawOutcome`, and the
  `DynamicGameState`/`GameState` trait surface consumed by the evaluators
  (modelled as the record `DynGame`);
* `src/evaluator.rs` — `RandomEvaluator` and `EndStateEvaluator::evaluate`
  (fueled, with the `visited` memoization cache threaded explicitly);
* `src/strategy.rs` — `GreedyStrategy::best_action`;
* `src/games/tic_tac_toe.rs` — the concrete `BoardState` game, used to
  instantiate the generic evaluator theorems;
* `src/games/masked_tic_tac_toe.rs` — the imperfect-information game and its
  belief-state evaluator (`visible_history`, `superposition`,
  `MaskedEvaluator::evaluate`).

Rust `u16`/`u64` values are modelled as `Nat` (bitwise `&&&`/`|||` never
overflow; the one wrapping addition, `board[0] + board[1]` in `is_draw`, and
the wrapping LCG multiply-add are taken modulo `2 ^ 16` resp. `2 ^ 64`
explicitly).  `i8` evaluations stay within `{-1, 0, 1}` and are modelled as
`Int`.  Fallible Rust code returns `Except`; a `panic!`-family abort
(`todo!`, `unreachable!`) is a distinguished value; recursion that Rust runs
unboundedly is given explicit fuel, with `Option.none` marking fuel
exhaustion only.
-/

namespace Reinfors

/-- `tic_tac_toe.rs`: `pub struct Action(Position);` with `Position = u16`.
A move token; for real tic-tac-toe moves the payload has a single 1 bit. -/
structure Action where
  pos : Nat
deriving DecidableEq, Repr

/-- `game_state.rs`: the cyclic `Player` value (`n_players`, `current`). -/
structure PlayerId where
  n_players : Nat
  current : Nat
deriving DecidableEq, Repr

namespace PlayerId

/-- `Player::new(n_players)`. -/
def new (n : Nat) : PlayerId := ⟨n, 0⟩

/-- `Player::player_index`: the 0-indexed player number. -/
def player_index (p : PlayerId) : Nat := p.current

/-- `Player::next`. -/
def next (p : PlayerId) : PlayerId := ⟨p.n_players, (p.current + 1) % p.n_players⟩

/-- `Player::wrapping_sub`. -/
def wrapping_sub (p : PlayerId) : Nat :=
  if p.current = 0 then p.n_players - 1 else p.current - 1

/-- `Player::last`. -/
def last (p : PlayerId) : PlayerId := ⟨p.n_players, p.wrapping_sub⟩

end PlayerId

/-- `game_state.rs`: `WinDrawOutcome<G>` — win for a player, or a draw. -/
inductive WinDraw (P : Type) where
  | win (p : P)
  | draw
deriving DecidableEq, Repr

/-- `game_state.rs`: `GameError<G>`. -/
inductive GError (S A : Type) where
  | illegalAction (s : S) (a : A)
  | gameOver (s : S) (a : A)
  | noLegalActions (s : S)
  | strategyFailure (s : S)
  | evaluatorFailure (s : S) (conflicting : List A)
  | arbitrary (msg : String)
deriving DecidableEq, Repr

deriving instance DecidableEq for Except

/-- The `DynamicGameState`/`GameState` trait surface that `evaluator.rs` and
`strategy.rs` consume, as a record of operations.  `legalActions` stands for
`GameState::legal_actions()` (= `actions()` filtered by `is_legal`),
materialised in iteration order. -/
structure DynGame (S A P : Type) where
  apply : S → A → Except (GError S A) S
  outcome : S → Option (WinDraw P)
  currentPlayer : S → P
  legalActions : S → List A

variable {S A P : Type}

/-- The `visited: HashMap<G, G::Outcome>` cache of `EndStateEvaluator`,
as an association list (newest entry first). -/
def Cache (S P : Type) : Type := List (S × WinDraw P)

/-- Cache lookup (`HashMap::get`), for a memoization table kept as an
association list. -/
def cacheFind {K V : Type} [DecidableEq K] : List (K × V) → K → Option V
  | [], _ => none
  | (k, v) :: rest, s => if k = s then some v else cacheFind rest s

/-- The `for action in actions` loop of `EndStateEvaluator::evaluate`
(`evaluator.rs` lines 96–130).  `child` is the recursive call at one less
fuel, threading the cache; `nd`/`nl` are the `n_draws`/`n_losses` counters;
`cpNew` is the current player of the state being expanded, `cpOld` the
current player of the original `state` argument.  `none` = out of fuel. -/
def endLoop [DecidableEq P]
    (child : List (S × WinDraw P) → A → Option (Except (GError S A) (WinDraw P × List (S × WinDraw P))))
    (ns : S) (cpNew cpOld : P) :
    List A → List (S × WinDraw P) → Nat → Nat →
    Option (Except (GError S A) (WinDraw P × List (S × WinDraw P)))
  | [], c, nd, nl =>
    if 0 < nd then some (.ok (.draw, c))
    else if 0 < nl then some (.ok (.win cpOld, c))
    else some (.error (.noLegalActions ns))
  | a :: rest, c, nd, nl =>
    match child c a with
    | none => none
    | some (.error e) => some (.error e)
    | some (.ok (.draw, c1)) => endLoop child ns cpNew cpOld rest c1 (nd + 1) nl
    | some (.ok (.win p, c1)) =>
      if p = cpNew then some (.ok (.win p, c1))
      else endLoop child ns cpNew cpOld rest c1 nd (nl + 1)

/-- `EndStateEvaluator::evaluate` (`evaluator.rs` lines 76–131), with the
`visited` cache threaded explicitly and fuel bounding the recursion depth
(`none` = out of fuel; the Rust recursion has no such bound). -/
def endEval [DecidableEq S] [DecidableEq P] (g : DynGame S A P) :
    Nat → List (S × WinDraw P) → S → A →
    Option (Except (GError S A) (WinDraw P × List (S × WinDraw P)))
  | 0, _, _, _ => none
  | fuel + 1, c, s, a =>
    match g.apply s a with
    | .error e => some (.error e)
    | .ok ns =>
      match cacheFind c ns with
      | some o => some (.ok (o, c))
      | none =>
        match g.outcome ns with
        | some o => some (.ok (o, (ns, o) :: c))
        | none =>
          match g.legalActions ns with
          | [] => some (.error (.noLegalActions ns))
          | a1 :: rest =>
            endLoop (fun c1 a2 => endEval g fuel c1 ns a2) ns
              (g.currentPlayer ns) (g.currentPlayer s) (a1 :: rest) c 0 0

/-- The spec's combination priority over the recursive child evaluations:
the first child that is a win for the mover is returned immediately
(short-circuit — later children are not consulted); otherwise a draw among
the children makes the position a draw; otherwise it is a win for the player
who moved just before (`prev`).  `sawDraw` records whether a draw has been
seen so far; child errors and fuel exhaustion propagate. -/
def combineByPriority [DecidableEq P]
    (childVal : A → Option (Except (GError S A) (WinDraw P)))
    (mover prev : P) :
    List A → Bool → Option (Except (GError S A) (WinDraw P))
  | [], sawDraw => some (.ok (if sawDraw then .draw else .win prev))
  | a :: rest, sawDraw =>
    match childVal a with
    | none => none
    | some (.error e) => some (.error e)
    | some (.ok .draw) => combineByPriority childVal mover prev rest true
    | some (.ok (.win p)) =>
      if p = mover then some (.ok (.win p))
      else combineByPriority childVal mover prev rest sawDraw

/-- Cache-free backward-induction value: the same recursion as
`EndStateEvaluator::evaluate` with the memoization cache erased.  Used to
express what the recursive child evaluations are worth independently of
cache threading. -/
def evalPure [DecidableEq P] (g : DynGame S A P) :
    Nat → S → A → Option (Except (GError S A) (WinDraw P))
  | 0, _, _ => none
  | fuel + 1, s, a =>
    match g.apply s a with
    | .error e => some (.error e)
    | .ok ns =>
      match g.outcome ns with
      | some o => some (.ok o)
      | none =>
        match g.legalActions ns with
        | [] => some (.error (.noLegalActions ns))
        | a1 :: rest =>
          combineByPriority (evalPure g fuel ns) (g.currentPlayer ns) (g.currentPlayer s) (a1 :: rest) false

/-- Forget the cache component of an evaluator result. -/
def eraseCache :
    Option (Except (GError S A) (WinDraw P × List (S × WinDraw P))) →
    Option (Except (GError S A) (WinDraw P))
  | none => none
  | some (.error e) => some (.error e)
  | some (.ok (o, _)) => some (.ok o)

/-- The `visited` cache invariant: every entry records the terminal outcome
of the state it is keyed by (`evaluator.rs` inserts only at line 85). -/
def CacheInv (g : DynGame S A P) (c : List (S × WinDraw P)) : Prop :=
  ∀ e ∈ c, g.outcome e.1 = some e.2

/-! ### The concrete tic-tac-toe game (`src/games/tic_tac_toe.rs`) -/

/-- `tic_tac_toe.rs`: `Piece`. -/
inductive Piece where
  | X
  | O
  | Empty
deriving DecidableEq, Repr

/-- `Piece::flip`. -/
def Piece.flip : Piece → Piece
  | .X => .O
  | .O => .X
  | .Empty => .Empty

/-- `tic_tac_toe.rs`: `WINNING_POSITIONS` (u16 boards, one per line). -/
def WINNING_POSITIONS : List Nat :=
  [0b111000000, 0b000111000, 0b000000111,
   0b100100100, 0b010010010, 0b001001001,
   0b100010001, 0b001010100]

/-- `tic_tac_toe.rs`: `ALL_MOVES` — the nine single-bit move tokens. -/
def ALL_MOVES : List Action :=
  [⟨1⟩, ⟨2⟩, ⟨4⟩, ⟨8⟩, ⟨16⟩, ⟨32⟩, ⟨64⟩, ⟨128⟩, ⟨256⟩]

/-- `tic_tac_toe.rs`: `DRAW` — all nine squares occupied. -/
def DRAW : Nat := 0b111111111

/-- `tic_tac_toe.rs`: `BoardState` (`board: [Board; 2]` is modelled by the
two fields `board0`, `board1`). -/
structure BoardState where
  board0 : Nat
  board1 : Nat
  current_player : PlayerId
  player1_piece : Piece
deriving DecidableEq, Repr

namespace BoardState

/-- `board[i]` for the player index `i` (reachable indices are 0 and 1). -/
def board (s : BoardState) (i : Nat) : Nat :=
  if i = 0 then s.board0 else s.board1

/-- Write `board[i]` (reachable indices are 0 and 1). -/
def setBoard (s : BoardState) (i : Nat) (b : Nat) : BoardState :=
  if i = 0 then { s with board0 := b } else { s with board1 := b }

/-- `BoardState::new`. -/
def new (player1_piece : Piece) : BoardState :=
  ⟨0, 0, PlayerId.new 2, player1_piece⟩

/-- `BoardState::is_legal` — the desired position is unoccupied. -/
def is_legal (s : BoardState) (a : Action) : Bool :=
  a.pos &&& (s.board0 ||| s.board1) == 0

/-- `BoardState::apply_unchecked`. -/
def apply_unchecked (s : BoardState) (a : Action) : BoardState :=
  let i := s.current_player.player_index
  { s.setBoard i (s.board i ||| a.pos) with current_player := s.current_player.next }

/-- `BoardState::winner`. -/
def winner (s : BoardState) : Option (WinDraw PlayerId) :=
  let lastP := s.current_player.last
  if WINNING_POSITIONS.any (fun pos => pos &&& s.board lastP.player_index == pos) then
    some (.win lastP)
  else if WINNING_POSITIONS.any
      (fun pos => pos &&& s.board s.current_player.player_index == pos) then
    some (.win s.current_player)
  else
    none

/-- `BoardState::is_draw` — wrapping u16 addition of the two boards. -/
def is_draw (s : BoardState) : Bool :=
  (s.board0 + s.board1) % 2 ^ 16 == DRAW

/-- `BoardState::outcome`. -/
def outcome (s : BoardState) : Option (WinDraw PlayerId) :=
  match s.winner with
  | some w => some w
  | none => if s.is_draw then some .draw else none

end BoardState

/-- The `DynamicGameState`/`GameState` impl of `BoardState`:
`apply` rejects illegal actions with `IllegalAction`, and
`legal_actions()` is `ALL_MOVES` filtered by `is_legal`. -/
def ticTacToeGame : DynGame BoardState Action PlayerId where
  apply s a := if s.is_legal a then .ok (s.apply_unchecked a) else .error (.illegalAction s a)
  outcome s := s.outcome
  currentPlayer s := s.current_player
  legalActions s := ALL_MOVES.filter s.is_legal

/-! ### The strategy layer (`src/strategy.rs`) and `RandomEvaluator` -/

/-- The `Evaluator` trait surface consumed by `GreedyStrategy`: a stateful
`evaluate` (evaluator state of type `E` threaded explicitly) and the
`PartialOrd::partial_cmp` of the evaluation type `V`. -/
structure EvalImpl (S A E V : Type) where
  evaluate : E → S → A → Except (GError S A) (V × E)
  pcmp : V → V → Option Ordering

/-- The `for action in actions` loop of `GreedyStrategy::best_action`
(`strategy.rs` lines 47–61), with the running best `(action, eval)` pair in
`accum`.  After the loop the Rust source hits `todo!()` (line 62), modelled
as `none` (panic). -/
def greedyLoop {E V : Type} (ev : EvalImpl S A E V) (s : S) :
    List A → E → (A × V) → Option (Except (GError S A) A)
  | [], _, _ => none
  | a :: rest, e, accum =>
    match ev.evaluate e s a with
    | .error err => some (.error err)
    | .ok (v, e1) =>
      match ev.pcmp accum.2 v with
      | some .lt => greedyLoop ev s rest e1 (a, v)
      | some _ => greedyLoop ev s rest e1 accum
      | none => some (.error (.evaluatorFailure s [accum.1, a]))

/-- `GreedyStrategy::best_action` (`strategy.rs` lines 39–63). -/
def greedyBestAction {E V : Type} (g : DynGame S A P) (ev : EvalImpl S A E V)
    (e : E) (s : S) : Option (Except (GError S A) A) :=
  match g.legalActions s with
  | [] => some (.error (.noLegalActions s))
  | a :: rest =>
    match ev.evaluate e s a with
    | .error err => some (.error err)
    | .ok (v, e1) => greedyLoop ev s rest e1 (a, v)

/-- `RandomEvaluator`'s linear-congruential update of the 64-bit seed. -/
def randomNext (r : Nat) : Nat := (r * 1664525 + 1013904223) % 2 ^ 64

/-- `RandomEvaluator` as an `EvalImpl`: evaluator state is the `u64`
`rng_state`; evaluations are `u64`, whose `partial_cmp` is total. -/
def randomEvaluator (S A : Type) : EvalImpl S A Nat Nat where
  evaluate r _ _ := .ok (randomNext r, randomNext r)
  pcmp x y := some (compare x y)

/-- Whether a strategy result is `Ok(action)`. -/
def returnsAction : Option (Except (GError S A) A) → Bool
  | some (.ok _) => true
  | _ => false

/-! ### Masked tic-tac-toe (`src/games/masked_tic_tac_toe.rs`) -/

/-- `masked_tic_tac_toe.rs` (via `game_state/player.rs`): `TwoPlayer`.
Rust `Default` is `player0 = true`. -/
structure TwoPlayer where
  player0 : Bool
deriving DecidableEq, Repr

namespace TwoPlayer

/-- `TwoPlayer::next`. -/
def next (p : TwoPlayer) : TwoPlayer := ⟨!p.player0⟩

/-- `TwoPlayer::index` — `(!player0) as usize`. -/
def index (p : TwoPlayer) : Nat := if p.player0 then 0 else 1

/-- `TwoPlayer::last` (same as `next` for two players). -/
def last (p : TwoPlayer) : TwoPlayer := p.next

end TwoPlayer

/-- `BitBoard::is_occupied` — all bits of the action are set. -/
def bbIsOccupied (b : Nat) (a : Action) : Bool := b &&& a.pos == a.pos

/-- `BitBoard::apply` — set the action's bits. -/
def bbApply (b : Nat) (a : Action) : Nat := b ||| a.pos

/-- `masked_tic_tac_toe.rs`: `Info<T>` — per-history-entry observability. -/
inductive Info (T : Type) where
  | visible (t : T)
  | masked (t : T)
  | invisible
deriving DecidableEq, Repr

/-- Modelled from the spec: `ALL_ACTIONS`, referenced by
`masked_tic_tac_toe.rs` but not defined under `src/` in this snapshot, is
the fixed enumerable action space of nine single-bit squares — the same
list `tic_tac_toe.rs` calls `ALL_MOVES`. -/
def ALL_ACTIONS : List Action := ALL_MOVES

/-- Modelled from the spec: `FULL`, referenced by `masked_tic_tac_toe.rs`
but not defined under `src/` in this snapshot, is the fully occupied board
mask — the value `tic_tac_toe.rs` calls `DRAW` (`0b111_111_111`). -/
def FULL : Nat := 0b111111111

/-- `masked_tic_tac_toe.rs`: `MaskedTicTacToe<N>`.  `board: [BitBoard; 2]`
is modelled by `board0`/`board1`; the const-generic `masked: [Action; N]`
by a list. -/
structure MaskedTicTacToe where
  board0 : Nat
  board1 : Nat
  masked : List Action
  no_action : Nat
  history : List Action
  current_player : TwoPlayer
  player1_piece : Piece
deriving DecidableEq, Repr

namespace MaskedTicTacToe

/-- `MaskedTicTacToe::new` (all other fields `Default`). -/
def new (masked : List Action) : MaskedTicTacToe :=
  ⟨0, 0, masked, 0, [], ⟨true⟩, .X⟩

/-- `MaskedTicTacToe::genesis`. -/
def genesis (s : MaskedTicTacToe) : MaskedTicTacToe := new s.masked

/-- `board[i]` for the player index `i` (reachable indices are 0 and 1). -/
def board (s : MaskedTicTacToe) (i : Nat) : Nat :=
  if i = 0 then s.board0 else s.board1

/-- `MaskedTicTacToe::last_player`. -/
def last_player (s : MaskedTicTacToe) : TwoPlayer := s.current_player.last

/-- `MaskedTicTacToe::player_occupies`. -/
def player_occupies (s : MaskedTicTacToe) (p : TwoPlayer) (a : Action) : Bool :=
  bbIsOccupied (s.board p.index) a

/-- `MaskedTicTacToe::is_masked` — membership in the `masked` slots. -/
def is_masked (s : MaskedTicTacToe) (a : Action) : Bool :=
  s.masked.any (fun m => m == a)

/-- `MaskedTicTacToe::is_full`. -/
def is_full (s : MaskedTicTacToe) : Bool := (s.board0 ||| s.board1) == FULL

/-- `MaskedTicTacToe::last_player_wins`. -/
def last_player_wins (s : MaskedTicTacToe) : Bool :=
  WINNING_POSITIONS.any (fun pos => pos &&& s.board s.last_player.index == pos)

/-- `MaskedTicTacToe::apply_unchecked` (`masked_tic_tac_toe.rs` lines
191–212): if the *other* player already occupies the square the attempt is
recorded in `no_action` and the boards are untouched; otherwise the acting
player's board gains the square.  Either way the action is appended to the
history and the turn passes. -/
def apply_unchecked (s : MaskedTicTacToe) (a : Action) : MaskedTicTacToe :=
  let base :=
    if s.player_occupies s.last_player a then
      { s with no_action := bbApply s.no_action a }
    else if s.current_player.index = 0 then
      { s with board0 := bbApply s.board0 a }
    else
      { s with board1 := bbApply s.board1 a }
  { base with history := s.history ++ [a], current_player := s.last_player }

/-- `MaskedTicTacToe::outcome`. -/
def outcome (s : MaskedTicTacToe) : Option (WinDraw TwoPlayer) :=
  if s.last_player_wins then some (.win s.last_player)
  else if s.is_full then some .draw
  else none

/-- `MaskedTicTacToe::is_legal` (`masked_tic_tac_toe.rs` lines 246–258). -/
def is_legal (s : MaskedTicTacToe) (a : Action) : Bool :=
  if s.player_occupies s.current_player a then false
  else if s.is_masked a then !(bbIsOccupied s.no_action a)
  else !(s.player_occupies s.last_player a)

/-- `MaskedTicTacToe::legal_actions`. -/
def legal_actions (s : MaskedTicTacToe) : List Action :=
  ALL_ACTIONS.filter s.is_legal

/-- `MaskedTicTacToe::legal_masked`. -/
def legal_masked (s : MaskedTicTacToe) : List Action :=
  s.masked.filter s.is_legal

end MaskedTicTacToe

/-- The classification loop of `MaskedTicTacToe::visible_history`
(`masked_tic_tac_toe.rs` lines 264–294): `m` is the masked-action array,
`p` the observing (current) player's index, `i` the position of the next
entry and `fm` the `first_masked_action` flag, which is cleared by *every*
masked entry regardless of who made it. -/
def classifyGo (m : List Action) (p : Nat) : List Action → Nat → Bool → List (Info Action)
  | [], _, _ => []
  | a :: rest, i, fm =>
    let hidden := m.any (fun x => x == a)
    let info :=
      if hidden then
        if i % 2 != p then Info.invisible
        else if fm then Info.visible a
        else Info.masked a
      else Info.visible a
    info :: classifyGo m p rest (i + 1) (if hidden then false else fm)

/-- `MaskedTicTacToe::visible_history`. -/
def MaskedTicTacToe.visible_history (s : MaskedTicTacToe) : List (Info Action) :=
  classifyGo s.masked s.current_player.index s.history 0 true

/-- The distinct `panic!`-family aborts reachable from
`MaskedEvaluator::evaluate`: the `unreachable!` guard on histories longer
than 11 plies, the `unreachable!` for an opponent win right after the
mover's action, and the `unreachable!` arms of the bound-combination
match. -/
inductive MPanic where
  | tooLong
  | otherWin
  | badCombo
deriving DecidableEq, Repr

/-- `MaskedEvaluator::superposition` (`masked_tic_tac_toe.rs` lines
454–488): fold the observed information over the candidate set. -/
def superposition (genesis : MaskedTicTacToe) (history : List (Info Action)) :
    List MaskedTicTacToe :=
  history.foldl
    (fun sup observed =>
      match observed with
      | .visible a | .masked a =>
        ((sup.filter (fun st => st.is_legal a)).map
            (fun st => st.apply_unchecked a)).filter
          (fun ns => ns.outcome.isNone)
      | .invisible =>
        sup.flatMap (fun st =>
          (st.legal_masked.map (fun a => st.apply_unchecked a)).filter
            (fun ns => ns.outcome.isNone)))
    [genesis]

/-- The bound-combination match of `MaskedEvaluator::evaluate`
(`masked_tic_tac_toe.rs` lines 424–443), mapping the child's
`(their_temp_eval, my_temp_eval)` and the running `(my_eval,
their_step_ahead_eval)` to their new values; the `unreachable!` arms
(including the catch-all) abort. -/
def comboStep (theirTemp myTemp my theirStep : Int) : Except MPanic (Int × Int) :=
  if theirTemp = 1 then
    if myTemp = 1 then .error .badCombo
    else if myTemp = 0 then .error .badCombo
    else if myTemp = -1 then .ok (-1, 1)
    else .error .badCombo
  else if theirTemp = 0 then
    if myTemp = 1 then .error .badCombo
    else if myTemp = 0 then .ok (min my 0, max theirStep 0)
    else if myTemp = -1 then .ok (-1, max theirStep 0)
    else .error .badCombo
  else if theirTemp = -1 then
    if myTemp = 1 then .ok (my, theirStep)
    else if myTemp = 0 then .ok (min my 0, theirStep)
    else if myTemp = -1 then .ok (-1, theirStep)
    else .error .badCombo
  else .error .badCombo

/-- The inner `for opponent_action in opponent_actions` loop of
`MaskedEvaluator::evaluate` (lines 420–444), threading `(my_eval,
their_step_ahead_eval)` and the memoization cache through the recursive
calls (`recurse` is the evaluator at one less fuel). -/
def maskedInner
    (recurse : List ((List (Info Action) × Action) × (Int × Int)) → MaskedTicTacToe →
      Action → Option (Except MPanic ((Int × Int) × List ((List (Info Action) × Action) × (Int × Int)))))
    (pns : MaskedTicTacToe) :
    List Action → List ((List (Info Action) × Action) × (Int × Int)) → Int → Int →
    Option (Except MPanic ((Int × Int) × List ((List (Info Action) × Action) × (Int × Int))))
  | [], c, my, theirStep => some (.ok ((my, theirStep), c))
  | oa :: rest, c, my, theirStep =>
    match recurse c pns oa with
    | none => none
    | some (.error e) => some (.error e)
    | some (.ok ((theirTemp, myTemp), c1)) =>
      match comboStep theirTemp myTemp my theirStep with
      | .error e => some (.error e)
      | .ok (my1, theirStep1) => maskedInner recurse pns rest c1 my1 theirStep1

/-- The outer `for possible_current_state in superposition` loop of
`MaskedEvaluator::evaluate` (lines 395–448), threading `(my_eval,
their_eval)`: candidates where the action is illegal are skipped; a win for
the mover pins `their_eval` to `-1`; a draw caps both bounds at `0`; an
opponent win aborts (`unreachable!`); a non-terminal result runs the inner
loop and then caps `their_eval` by the opponent's step-ahead bound. -/
def maskedOuter
    (recurse : List ((List (Info Action) × Action) × (Int × Int)) → MaskedTicTacToe →
      Action → Option (Except MPanic ((Int × Int) × List ((List (Info Action) × Action) × (Int × Int)))))
    (cp : TwoPlayer) (a : Action) :
    List MaskedTicTacToe → List ((List (Info Action) × Action) × (Int × Int)) → Int → Int →
    Option (Except MPanic ((Int × Int) × List ((List (Info Action) × Action) × (Int × Int))))
  | [], c, my, their => some (.ok ((my, their), c))
  | st :: rest, c, my, their =>
    if !(st.is_legal a) then maskedOuter recurse cp a rest c my their
    else
      let pns := st.apply_unchecked a
      match pns.outcome with
      | some (.win p) =>
        if p = cp then maskedOuter recurse cp a rest c my (-1)
        else some (.error .otherWin)
      | some .draw => maskedOuter recurse cp a rest c (min my 0) (min their 0)
      | none =>
        match maskedInner recurse pns pns.legal_actions c my (-1) with
        | none => none
        | some (.error e) => some (.error e)
        | some (.ok ((my1, theirStep), c1)) =>
          maskedOuter recurse cp a rest c1 my1 (min their theirStep)

/-- `MaskedEvaluator::evaluate` (`masked_tic_tac_toe.rs` lines 366–452),
with the `visited` cache threaded explicitly and fuel bounding the
recursion depth (`none` = out of fuel; panics are `.error` values). -/
def maskedEvaluate :
    Nat → List ((List (Info Action) × Action) × (Int × Int)) → MaskedTicTacToe → Action →
    Option (Except MPanic ((Int × Int) × List ((List (Info Action) × Action) × (Int × Int))))
  | 0, _, _, _ => none
  | fuel + 1, c, s, a =>
    let history := s.visible_history
    if 11 < history.length then some (.error .tooLong)
    else
      match cacheFind c (history, a) with
      | some ev => some (.ok (ev, c))
      | none =>
        match maskedOuter (fun c1 s1 a1 => maskedEvaluate fuel c1 s1 a1)
            s.current_player a (superposition s.genesis history) c 1 1 with
        | none => none
        | some (.error e) => some (.error e)
        | some (.ok ((my, their), c1)) =>
          some (.ok ((my, their), ((history, a), (my, their)) :: c1))

/-- Replaying a recorded action history from a genesis state by literally
applying each action in order. -/
def replay (gen : MaskedTicTacToe) (l : List Action) : MaskedTicTacToe :=
  l.foldl (fun s a => s.apply_unchecked a) gen

/-! ### Spec-side definitions (for refinement and amended statements) -/

/-- One step of the belief-state fold, as the spec words it: for a
`Visible`/`Masked` entry carrying action `a`, keep only candidates in which
`a` is legal, apply `a` to each, and discard terminal results; for an
`Invisible` entry, branch every candidate over each of its legal hidden
(masked) actions, again discarding terminal results. -/
def beliefStep (cands : List MaskedTicTacToe) : Info Action → List MaskedTicTacToe
  | .visible a | .masked a =>
    ((cands.filter (fun st => st.is_legal a)).map
        (fun st => st.apply_unchecked a)).filter (fun ns => ns.outcome.isNone)
  | .invisible =>
    cands.flatMap (fun st =>
      (st.legal_masked.map (fun a => st.apply_unchecked a)).filter
        (fun ns => ns.outcome.isNone))

/-- The fold described by the spec: start from the given candidate set and
process the information entries in order via `beliefStep`. -/
def specSuperposition (cands : List MaskedTicTacToe) : List (Info Action) → List MaskedTicTacToe
  | [] => cands
  | e :: rest => specSuperposition (beliefStep cands e) rest

/-- The history classification exactly as claim C4 words it: a non-hidden
entry is `Visible`; a hidden entry by the opponent is `Invisible`; the
observing player's own hidden entry is `Visible` if none of their *own*
earlier entries is hidden, and `Masked` otherwise. -/
def claimClassify (s : MaskedTicTacToe) : List (Info Action) :=
  s.history.enum.map (fun q =>
    if !(s.is_masked q.2) then Info.visible q.2
    else if q.1 % 2 != s.current_player.index then Info.invisible
    else if (s.history.take q.1).enum.any
        (fun r => r.1 % 2 == s.current_player.index && s.is_masked r.2) then
      Info.masked q.2
    else Info.visible q.2)

/-- The amended classification: as `claimClassify`, except that the
observing player's own hidden entry is `Visible` only when *no* earlier
entry (by either player) is hidden — the `first_masked_action` flag of the
source is global, not per-player. -/
def amendedClassify (s : MaskedTicTacToe) : List (Info Action) :=
  s.history.enum.map (fun q =>
    if !(s.is_masked q.2) then Info.visible q.2
    else if q.1 % 2 != s.current_player.index then Info.invisible
    else if (s.history.take q.1).any (fun b => s.is_masked b) then Info.masked q.2
    else Info.visible q.2)

/-- Positionwise compatibility of a concrete action history with an
observed information sequence: `Visible`/`Masked` positions carry exactly
the recorded action, `Invisible` positions hold some action from the
masked-action array `m`. -/
def histMatch (m : List Action) : List (Info Action) → List Action → Bool
  | [], [] => true
  | .visible a :: h, b :: l => a == b && histMatch m h l
  | .masked a :: h, b :: l => a == b && histMatch m h l
  | .invisible :: h, b :: l => m.any (fun x => x == b) && histMatch m h l
  | _, _ => false

/-- Compatibility of one concrete appended action with one information
entry: `Visible`/`Masked` carry exactly that action, `Invisible` holds some
action from the masked array. -/
def infoCompat (m : List Action) : Info Action → Action → Prop
  | .visible a, b => a = b
  | .masked a, b => a = b
  | .invisible, b => m.any (fun x => x == b) = true

theorem cacheFind_inv [DecidableEq S] {g : DynGame S A P} :
    ∀ {c : List (S × WinDraw P)} {s : S} {o : WinDraw P},
      CacheInv g c → cacheFind c s = some o → g.outcome s = some o := by
  intro c
  induction c with
  | nil => intro s o _ h; simp [cacheFind] at h
  | cons e rest ih =>
    intro s o hinv h
    obtain ⟨k, v⟩ := e
    simp only [cacheFind] at h
    by_cases hk : k = s
    · rw [if_pos hk] at h
      injection h with h2
      subst hk
      subst h2
      exact hinv (k, v) (List.mem_cons_self _ _)
    · rw [if_neg hk] at h
      exact ih (fun e he => hinv e (List.mem_cons_of_mem _ he)) h

/-- Cache soundness of the evaluator loop: erasing the threaded cache from
`endLoop` gives `combineByPriority` over the cache-free child values, the
cache only grows, and the invariant is preserved.  The side condition
`0 < nd + nl ∨ acts ≠ []` reflects that the loop is entered either with at
least one prior child counted or with children still to process, so the
final `n_draws`/`n_losses` discrimination agrees with the `sawDraw` flag. -/
theorem endLoop_bridge [DecidableEq S] [DecidableEq P] (g : DynGame S A P)
    (child : List (S × WinDraw P) → A →
      Option (Except (GError S A) (WinDraw P × List (S × WinDraw P))))
    (pchild : A → Option (Except (GError S A) (WinDraw P)))
    (hchild : ∀ c a, CacheInv g c →
      eraseCache (child c a) = pchild a ∧
      ∀ o c1, child c a = some (.ok (o, c1)) → CacheInv g c1 ∧ c ⊆ c1)
    (ns : S) (cpN cpO : P) :
    ∀ (acts : List A) (c : List (S × WinDraw P)) (nd nl : Nat),
      CacheInv g c → (0 < nd + nl ∨ acts ≠ []) →
      eraseCache (endLoop child ns cpN cpO acts c nd nl)
          = combineByPriority pchild cpN cpO acts (decide (0 < nd)) ∧
      ∀ o c1, endLoop child ns cpN cpO acts c nd nl = some (.ok (o, c1)) →
        CacheInv g c1 ∧ c ⊆ c1 := by
  intro acts
  induction acts with
  | nil =>
    intro c nd nl hinv hne
    have hnum : 0 < nd + nl := by
      rcases hne with h | h
      · exact h
      · simp at h
    by_cases hnd : 0 < nd
    · refine ⟨by simp [endLoop, combineByPriority, hnd, eraseCache], ?_⟩
      intro o c1 h
      simp only [endLoop, if_pos hnd] at h
      cases h
      exact ⟨hinv, List.Subset.refl c⟩
    · have hnl : 0 < nl := by omega
      refine ⟨by simp [endLoop, combineByPriority, hnd, hnl, eraseCache], ?_⟩
      intro o c1 h
      simp only [endLoop, if_neg hnd, if_pos hnl] at h
      cases h
      exact ⟨hinv, List.Subset.refl c⟩
  | cons a rest ih =>
    intro c nd nl hinv _
    have hc := hchild c a hinv
    cases hch : child c a with
    | none =>
      have hpc : pchild a = none := by rw [← hc.1, hch]; rfl
      refine ⟨by simp [endLoop, combineByPriority, hch, hpc, eraseCache], ?_⟩
      intro o c1 h
      simp [endLoop, hch] at h
    | some r =>
      cases r with
      | error e =>
        have hpc : pchild a = some (.error e) := by rw [← hc.1, hch]; rfl
        refine ⟨by simp [endLoop, combineByPriority, hch, hpc, eraseCache], ?_⟩
        intro o c1 h
        simp [endLoop, hch] at h
      | ok pr =>
        obtain ⟨o0, c1⟩ := pr
        have hpc : pchild a = some (.ok o0) := by rw [← hc.1, hch]; rfl
        have hstep := hc.2 o0 c1 hch
        cases o0 with
        | draw =>
          have hrec := ih c1 (nd + 1) nl hstep.1 (Or.inl (by omega))
          have hunf : endLoop child ns cpN cpO (a :: rest) c nd nl
              = endLoop child ns cpN cpO rest c1 (nd + 1) nl := by
            simp [endLoop, hch]
          refine ⟨?_, ?_⟩
          · rw [hunf, hrec.1]
            simp [combineByPriority, hpc]
          · intro o c2 h
            rw [hunf] at h
            have := hrec.2 o c2 h
            exact ⟨this.1, List.Subset.trans hstep.2 this.2⟩
        | win p =>
          by_cases hp : p = cpN
          · have hunf : endLoop child ns cpN cpO (a :: rest) c nd nl
                = some (.ok (.win p, c1)) := by
              simp [endLoop, hch, hp]
            refine ⟨?_, ?_⟩
            · rw [hunf]
              simp [combineByPriority, hpc, hp, eraseCache]
            · intro o c2 h
              rw [hunf] at h
              cases h
              exact hstep
          · have hunf : endLoop child ns cpN cpO (a :: rest) c nd nl
                = endLoop child ns cpN cpO rest c1 nd (nl + 1) := by
              simp [endLoop, hch, hp]
            have hrec := ih c1 nd (nl + 1) hstep.1 (Or.inl (by omega))
            refine ⟨?_, ?_⟩
            · rw [hunf, hrec.1]
              simp [combineByPriority, hpc, hp]
            · intro o c2 h
              rw [hunf] at h
              have := hrec.2 o c2 h
              exact ⟨this.1, List.Subset.trans hstep.2 this.2⟩

/-- Memoization transparency of `EndStateEvaluator::evaluate`: with a sound
cache, the returned value is the cache-free backward-induction value, the
cache only gains entries, and every entry still records its state's
terminal outcome. -/
theorem endEval_bridge [DecidableEq S] [DecidableEq P] (g : DynGame S A P) :
    ∀ (fuel : Nat) (c : List (S × WinDraw P)) (s : S) (a : A),
      CacheInv g c →
      eraseCache (endEval g fuel c s a) = evalPure g fuel s a ∧
      ∀ o c1, endEval g fuel c s a = some (.ok (o, c1)) → CacheInv g c1 ∧ c ⊆ c1 := by
  intro fuel
  induction fuel with
  | zero =>
    intro c s a _
    exact ⟨rfl, by intro o c1 h; simp [endEval] at h⟩
  | succ fuel ih =>
    intro c s a hinv
    cases happ : g.apply s a with
    | error e =>
      refine ⟨by simp [endEval, evalPure, happ, eraseCache], ?_⟩
      intro o c1 h
      simp [endEval, happ] at h
    | ok ns =>
      cases hfind : cacheFind c ns with
      | some o0 =>
        have hout : g.outcome ns = some o0 := cacheFind_inv hinv hfind
        refine ⟨by simp [endEval, evalPure, happ, hfind, hout, eraseCache], ?_⟩
        intro o c1 h
        simp only [endEval, happ, hfind] at h
        cases h
        exact ⟨hinv, List.Subset.refl c⟩
      | none =>
        cases hout : g.outcome ns with
        | some o0 =>
          refine ⟨by simp [endEval, evalPure, happ, hfind, hout, eraseCache], ?_⟩
          intro o c1 h
          simp only [endEval, happ, hfind, hout] at h
          cases h
          refine ⟨?_, List.subset_cons_self _ _⟩
          intro e he
          rcases List.mem_cons.mp he with h1 | h1
          · rw [h1]; exact hout
          · exact hinv e h1
        | none =>
          cases hacts : g.legalActions ns with
          | nil =>
            refine ⟨by simp [endEval, evalPure, happ, hfind, hout, hacts, eraseCache], ?_⟩
            intro o c1 h
            simp [endEval, happ, hfind, hout, hacts] at h
          | cons a1 rest =>
            have hloop := endLoop_bridge g
              (fun c1 a2 => endEval g fuel c1 ns a2)
              (fun a2 => evalPure g fuel ns a2)
              (fun c1 a2 hc1 => ih c1 ns a2 hc1) ns
              (g.currentPlayer ns) (g.currentPlayer s) (a1 :: rest) c 0 0 hinv
              (Or.inr (by simp))
            have hunf : endEval g (fuel + 1) c s a
                = endLoop (fun c1 a2 => endEval g fuel c1 ns a2) ns
                    (g.currentPlayer ns) (g.currentPlayer s) (a1 :: rest) c 0 0 := by
              simp [endEval, happ, hfind, hout, hacts]
            refine ⟨?_, ?_⟩
            · rw [hunf, hloop.1]
              simp [evalPure, happ, hout, hacts]
            · intro o c1 h
              rw [hunf] at h
              exact hloop.2 o c1 h

/-- C1: for every state `s` and action `a` such that applying `a` to `s`
yields a non-terminal state `ns` with at least one legal action, a fresh
`EndStateEvaluator::evaluate(s, a)` combines the recursive evaluations of
`ns`'s legal actions by priority: the first child that is a win for the
mover at `ns` is returned immediately (short-circuit), else a draw among
the children gives `Draw`, else the result is `Win(s.current_player())`. -/
theorem endStateEvaluator_combines_children_by_priority
    [DecidableEq S] [DecidableEq P] (g : DynGame S A P)
    (fuel : Nat) (s : S) (a : A) (ns : S)
    (happ : g.apply s a = .ok ns) (hout : g.outcome ns = none)
    (hne : g.legalActions ns ≠ []) :
    eraseCache (endEval g (fuel + 1) [] s a)
      = combineByPriority (evalPure g fuel ns)
          (g.currentPlayer ns) (g.currentPlayer s) (g.legalActions ns) false := by
  cases hacts : g.legalActions ns with
  | nil => exact absurd hacts hne
  | cons a1 rest =>
    have hloop := endLoop_bridge g
      (fun c1 a2 => endEval g fuel c1 ns a2)
      (fun a2 => evalPure g fuel ns a2)
      (fun c1 a2 hc1 => endEval_bridge g fuel c1 ns a2 hc1) ns
      (g.currentPlayer ns) (g.currentPlayer s) (a1 :: rest) [] 0 0
      (by intro e he; simp at he) (Or.inr (by simp))
    have hfind : cacheFind ([] : List (S × WinDraw P)) ns = none := rfl
    have hunf : endEval g (fuel + 1) [] s a
        = endLoop (fun c1 a2 => endEval g fuel c1 ns a2) ns
            (g.currentPlayer ns) (g.currentPlayer s) (a1 :: rest) [] 0 0 := by
      simp [endEval, happ, hfind, hout, hacts]
    rw [hunf, hloop.1]
    simp

/-- C7: if applying `a` to `s` yields a non-terminal state `ns` with an
empty legal-action set, `EndStateEvaluator::evaluate(s, a)` returns
`Err(GameError::NoLegalActions(ns))`, naming the offending state. -/
theorem endStateEvaluator_noLegalActions_error
    [DecidableEq S] [DecidableEq P] (g : DynGame S A P)
    (fuel : Nat) (c : List (S × WinDraw P)) (s : S) (a : A) (ns : S)
    (hinv : CacheInv g c)
    (happ : g.apply s a = .ok ns) (hout : g.outcome ns = none)
    (hacts : g.legalActions ns = []) :
    endEval g (fuel + 1) c s a = some (.error (.noLegalActions ns)) := by
  have hfind : cacheFind c ns = none := by
    cases hfind : cacheFind c ns with
    | none => rfl
    | some o0 =>
      have := cacheFind_inv hinv hfind
      rw [hout] at this
      cases this
  simp [endEval, happ, hfind, hout, hacts]

/-- C8 (amended): after a successful `evaluate(s, a)` the `visited` cache
has only gained entries, every entry (old and new) maps a state to its
terminal outcome — in particular, the state reached by applying `a` to `s`
is cached exactly when it is terminal — no key is associated with two
different values, and a second `evaluate(s, a)` call on the same evaluator
returns the identical result.  (The recursively combined outcome of a
non-terminal state is *not* inserted into the cache; see the
counterexample.) -/
theorem endStateEvaluator_cache_terminal_only
    [DecidableEq S] [DecidableEq P] (g : DynGame S A P)
    (fuel : Nat) (c : List (S × WinDraw P)) (s : S) (a : A)
    (o : WinDraw P) (c1 : List (S × WinDraw P))
    (hinv : CacheInv g c)
    (hrun : endEval g fuel c s a = some (.ok (o, c1))) :
    CacheInv g c1 ∧ c ⊆ c1 ∧
    (∀ k v1 v2, (k, v1) ∈ c1 → (k, v2) ∈ c1 → v1 = v2) ∧
    (∀ ns o2, g.apply s a = .ok ns → g.outcome ns = some o2 →
      cacheFind c1 ns = some o2) ∧
    eraseCache (endEval g fuel c1 s a) = some (.ok o) := by
  have hb := endEval_bridge g fuel c s a hinv
  have hgrow := hb.2 o c1 hrun
  refine ⟨hgrow.1, hgrow.2, ?_, ?_, ?_⟩
  · intro k v1 v2 h1 h2
    have e1 := hgrow.1 (k, v1) h1
    have e2 := hgrow.1 (k, v2) h2
    rw [e1] at e2
    injection e2
  · intro ns o2 happ hterm
    cases fuel with
    | zero => simp [endEval] at hrun
    | succ fuel =>
      cases hfind : cacheFind c ns with
      | some o0 =>
        have := cacheFind_inv hinv hfind
        rw [hterm] at this
        injection this with h3
        subst h3
        have : c1 = c := by
          simp only [endEval, happ, hfind] at hrun
          injection hrun with h4
          injection h4 with h5
          injection h5 with h6 h7
          exact h7.symm
        rw [this]
        exact hfind
      | none =>
        have : c1 = (ns, o2) :: c := by
          simp only [endEval, happ, hfind, hterm] at hrun
          injection hrun with h4
          injection h4 with h5
          injection h5 with h6 h7
          exact h7.symm
        rw [this]
        simp [cacheFind]
  · have hp : evalPure g fuel s a = some (.ok o) := by
      rw [← hb.1, hrun]
      rfl
    have hb1 := endEval_bridge g fuel c1 s a hgrow.1
    rw [hb1.1, hp]

/-! ### Shared lemmas about `MaskedTicTacToe` -/

theorem apply_unchecked_masked (s : MaskedTicTacToe) (a : Action) :
    (s.apply_unchecked a).masked = s.masked := by
  unfold MaskedTicTacToe.apply_unchecked
  by_cases h1 : s.player_occupies s.last_player a
  · simp [h1]
  · by_cases h2 : s.current_player.index = 0 <;> simp [h1, h2]

theorem apply_unchecked_history (s : MaskedTicTacToe) (a : Action) :
    (s.apply_unchecked a).history = s.history ++ [a] := rfl

theorem apply_unchecked_player (s : MaskedTicTacToe) (a : Action) :
    (s.apply_unchecked a).current_player = s.current_player.next := rfl

theorem next_index (p : TwoPlayer) : p.next.index = 1 - p.index := by
  obtain ⟨b⟩ := p
  cases b <;> rfl

theorem index_lt_two (p : TwoPlayer) : p.index < 2 := by
  obtain ⟨b⟩ := p
  cases b <;> simp [TwoPlayer.index]

theorem classifyGo_length (m : List Action) (p : Nat) :
    ∀ (l : List Action) (i : Nat) (fm : Bool), (classifyGo m p l i fm).length = l.length := by
  intro l
  induction l with
  | nil => intro i fm; rfl
  | cons a rest ih => intro i fm; simp [classifyGo, ih]

theorem visible_history_length (s : MaskedTicTacToe) :
    s.visible_history.length = s.history.length :=
  classifyGo_length s.masked s.current_player.index s.history 0 true

/-- C10: `MaskedTicTacToe::apply_unchecked` appends the action to the
history and passes the turn to the other player; when the opponent already
occupies the targeted square both boards are untouched and the square is
recorded in `no_action` (the move silently fails), otherwise the acting
player's board gains the square; `masked` and `player1_piece` never
change. -/
theorem apply_unchecked_frame (s : MaskedTicTacToe) (a : Action) :
    (s.apply_unchecked a).history = s.history ++ [a] ∧
    (s.apply_unchecked a).current_player = s.current_player.next ∧
    (s.apply_unchecked a).masked = s.masked ∧
    (s.apply_unchecked a).player1_piece = s.player1_piece ∧
    ((s.apply_unchecked a).board0, (s.apply_unchecked a).board1,
        (s.apply_unchecked a).no_action)
      = if s.player_occupies s.last_player a then
          (s.board0, s.board1, bbApply s.no_action a)
        else if s.current_player.index = 0 then
          (bbApply s.board0 a, s.board1, s.no_action)
        else
          (s.board0, bbApply s.board1 a, s.no_action) := by
  refine ⟨apply_unchecked_history s a, apply_unchecked_player s a,
    apply_unchecked_masked s a, ?_, ?_⟩
  · unfold MaskedTicTacToe.apply_unchecked
    by_cases h1 : s.player_occupies s.last_player a
    · simp [h1]
    · by_cases h2 : s.current_player.index = 0 <;> simp [h1, h2]
  · unfold MaskedTicTacToe.apply_unchecked
    by_cases h1 : s.player_occupies s.last_player a
    · simp [h1]
    · by_cases h2 : s.current_player.index = 0 <;> simp [h1, h2]

/-! ### Shared lemmas about `superposition` -/

theorem superposition_nil (gen : MaskedTicTacToe) : superposition gen [] = [gen] := rfl

theorem superposition_append_singleton (gen : MaskedTicTacToe)
    (h : List (Info Action)) (e : Info Action) :
    superposition gen (h ++ [e]) = beliefStep (superposition gen h) e := by
  unfold superposition
  rw [List.foldl_append]
  cases e <;> rfl

theorem specSuperposition_cons (cands : List MaskedTicTacToe)
    (e : Info Action) (h : List (Info Action)) :
    specSuperposition cands (e :: h) = specSuperposition (beliefStep cands e) h := rfl

theorem superposition_eq_specFold :
    ∀ (h : List (Info Action)) (cands : List MaskedTicTacToe),
      h.foldl
        (fun sup observed =>
          match observed with
          | .visible a | .masked a =>
            ((sup.filter (fun st => st.is_legal a)).map
                (fun st => st.apply_unchecked a)).filter (fun ns => ns.outcome.isNone)
          | .invisible =>
            sup.flatMap (fun st =>
              (st.legal_masked.map (fun a => st.apply_unchecked a)).filter
                (fun ns => ns.outcome.isNone)))
        cands = specSuperposition cands h := by
  intro h
  induction h with
  | nil => intro cands; rfl
  | cons e rest ih =>
    intro cands
    cases e <;> (rw [List.foldl_cons, specSuperposition_cons]; exact ih _)

theorem mem_beliefStep_visible (cands : List MaskedTicTacToe) (a : Action)
    (x : MaskedTicTacToe) :
    x ∈ beliefStep cands (.visible a)
      ↔ ∃ y ∈ cands, y.is_legal a = true ∧ x = y.apply_unchecked a ∧ x.outcome = none := by
  unfold beliefStep
  simp only [List.mem_filter, List.mem_map, List.mem_filter, Option.isNone_iff_eq_none]
  constructor
  · rintro ⟨⟨y, ⟨hy, hleg⟩, hxy⟩, hout⟩
    exact ⟨y, hy, hleg, hxy.symm, hout⟩
  · rintro ⟨y, hy, hleg, hxy, hout⟩
    exact ⟨⟨y, ⟨hy, hleg⟩, hxy.symm⟩, hout⟩

theorem mem_beliefStep_masked (cands : List MaskedTicTacToe) (a : Action)
    (x : MaskedTicTacToe) :
    x ∈ beliefStep cands (.masked a)
      ↔ ∃ y ∈ cands, y.is_legal a = true ∧ x = y.apply_unchecked a ∧ x.outcome = none := by
  unfold beliefStep
  simp only [List.mem_filter, List.mem_map, List.mem_filter, Option.isNone_iff_eq_none]
  constructor
  · rintro ⟨⟨y, ⟨hy, hleg⟩, hxy⟩, hout⟩
    exact ⟨y, hy, hleg, hxy.symm, hout⟩
  · rintro ⟨y, hy, hleg, hxy, hout⟩
    exact ⟨⟨y, ⟨hy, hleg⟩, hxy.symm⟩, hout⟩

theorem mem_beliefStep_invisible (cands : List MaskedTicTacToe) (x : MaskedTicTacToe) :
    x ∈ beliefStep cands .invisible
      ↔ ∃ y ∈ cands, ∃ b ∈ y.legal_masked, x = y.apply_unchecked b ∧ x.outcome = none := by
  unfold beliefStep
  simp only [List.mem_flatMap, List.mem_filter, List.mem_map, Option.isNone_iff_eq_none]
  constructor
  · rintro ⟨y, hy, ⟨b, hb, hxy⟩, hout⟩
    exact ⟨y, hy, b, hb, hxy.symm, hout⟩
  · rintro ⟨y, hy, b, hb, hxy, hout⟩
    exact ⟨y, hy, ⟨b, hb, hxy.symm⟩, hout⟩

/-- C2: `MaskedEvaluator::superposition` computes exactly the fold the spec
describes — starting from the singleton genesis set, a `Visible`/`Masked`
entry keeps the candidates in which the action is legal, applies it and
drops terminal results, and an `Invisible` entry branches every candidate
over its legal hidden (masked) actions, again dropping terminal results. -/
theorem superposition_is_spec_fold :
    (∀ (gen : MaskedTicTacToe) (h : List (Info Action)),
      superposition gen h = specSuperposition [gen] h) ∧
    (∀ (gen : MaskedTicTacToe) (h : List (Info Action)) (a : Action) (x : MaskedTicTacToe),
      x ∈ superposition gen (h ++ [.visible a])
        ↔ ∃ y ∈ superposition gen h,
            y.is_legal a = true ∧ x = y.apply_unchecked a ∧ x.outcome = none) ∧
    (∀ (gen : MaskedTicTacToe) (h : List (Info Action)) (a : Action) (x : MaskedTicTacToe),
      x ∈ superposition gen (h ++ [.masked a])
        ↔ ∃ y ∈ superposition gen h,
            y.is_legal a = true ∧ x = y.apply_unchecked a ∧ x.outcome = none) ∧
    (∀ (gen : MaskedTicTacToe) (h : List (Info Action)) (x : MaskedTicTacToe),
      x ∈ superposition gen (h ++ [.invisible])
        ↔ ∃ y ∈ superposition gen h,
            ∃ b ∈ y.legal_masked, x = y.apply_unchecked b ∧ x.outcome = none) := by
  refine ⟨?_, ?_, ?_, ?_⟩
  · intro gen h
    exact superposition_eq_specFold h [gen]
  · intro gen h a x
    rw [superposition_append_singleton]
    exact mem_beliefStep_visible _ a x
  · intro gen h a x
    rw [superposition_append_singleton]
    exact mem_beliefStep_masked _ a x
  · intro gen h x
    rw [superposition_append_singleton]
    exact mem_beliefStep_invisible _ x

/-! ### History-classification lemmas -/

theorem histMatch_append (m : List Action) (e : Info Action) (b : Action)
    (hcompat : infoCompat m e b) :
    ∀ (h : List (Info Action)) (l : List Action),
      histMatch m h l = true → histMatch m (h ++ [e]) (l ++ [b]) = true := by
  intro h
  induction h with
  | nil =>
    intro l hm
    cases l with
    | nil =>
      cases e with
      | visible a => simp [histMatch, infoCompat] at hcompat ⊢; exact hcompat
      | masked a => simp [histMatch, infoCompat] at hcompat ⊢; exact hcompat
      | invisible => simp [histMatch, infoCompat] at hcompat ⊢; exact hcompat
    | cons c l' => simp [histMatch] at hm
  | cons i h' ih =>
    intro l hm
    cases l with
    | nil => cases i <;> simp [histMatch] at hm
    | cons c l' =>
      cases i with
      | visible a =>
        simp only [histMatch, Bool.and_eq_true] at hm
        simp only [List.cons_append, histMatch, Bool.and_eq_true]
        exact ⟨hm.1, ih l' hm.2⟩
      | masked a =>
        simp only [histMatch, Bool.and_eq_true] at hm
        simp only [List.cons_append, histMatch, Bool.and_eq_true]
        exact ⟨hm.1, ih l' hm.2⟩
      | invisible =>
        simp only [histMatch, Bool.and_eq_true] at hm
        simp only [List.cons_append, histMatch, Bool.and_eq_true]
        exact ⟨hm.1, ih l' hm.2⟩

/-- Every member of a `superposition` originates from genesis: it has the
genesis masked array, one recorded action per information entry, the parity
player to move, it is reproduced by replaying its own history, and its
history is positionwise compatible with the information sequence. -/
theorem superposition_mem (m : List Action) :
    ∀ (h : List (Info Action)) (st : MaskedTicTacToe),
      st ∈ superposition (MaskedTicTacToe.new m) h →
      st.masked = m ∧ st.history.length = h.length ∧
      st.current_player.index = h.length % 2 ∧
      replay (MaskedTicTacToe.new m) st.history = st ∧
      histMatch m h st.history = true := by
  intro h
  induction h using List.reverseRecOn with
  | nil =>
    intro st hst
    rw [superposition_nil, List.mem_singleton] at hst
    subst hst
    exact ⟨rfl, rfl, rfl, rfl, rfl⟩
  | append_singleton h e ih =>
    intro st hst
    rw [superposition_append_singleton] at hst
    have hstep :
        ∃ y ∈ superposition (MaskedTicTacToe.new m) h, ∃ b : Action,
          infoCompat m e b ∧ st = y.apply_unchecked b := by
      cases e with
      | visible a =>
        obtain ⟨y, hy, _, hxy, _⟩ := (mem_beliefStep_visible _ a st).mp hst
        exact ⟨y, hy, a, rfl, hxy⟩
      | masked a =>
        obtain ⟨y, hy, _, hxy, _⟩ := (mem_beliefStep_masked _ a st).mp hst
        exact ⟨y, hy, a, rfl, hxy⟩
      | invisible =>
        obtain ⟨y, hy, b, hb, hxy, _⟩ := (mem_beliefStep_invisible _ st).mp hst
        refine ⟨y, hy, b, ?_, hxy⟩
        have hbm : b ∈ y.masked := (List.mem_filter.mp hb).1
        have hym := (ih y hy).1
        rw [hym] at hbm
        exact List.any_eq_true.mpr ⟨b, hbm, by simp⟩
    clear hst
    obtain ⟨y, hy, b, hcompat, hxy⟩ := hstep
    obtain ⟨hmask, hlen, hidx, hreplay, hmatch⟩ := ih y hy
    subst hxy
    refine ⟨?_, ?_, ?_, ?_, ?_⟩
    · rw [apply_unchecked_masked, hmask]
    · rw [apply_unchecked_history]
      simp [hlen]
    · rw [apply_unchecked_player, next_index, hidx]
      simp only [List.length_append, List.length_singleton]
      omega
    · unfold replay
      rw [apply_unchecked_history, List.foldl_append]
      have : List.foldl (fun s a => s.apply_unchecked a) (MaskedTicTacToe.new m) y.history = y :=
        hreplay
      rw [this]
      rfl
    · rw [apply_unchecked_history]
      exact histMatch_append m e b hcompat h y.history hmatch

/-- Classification depends on the history only through its maskedness
pattern and the payloads at `Visible`/`Masked` positions: any action list
positionwise compatible with an information sequence produced by
`classifyGo` classifies back to that very sequence. -/
theorem classifyGo_of_histMatch (m : List Action) (p : Nat) :
    ∀ (h : List (Info Action)) (l t : List Action) (i : Nat) (fm : Bool),
      histMatch m h l = true → classifyGo m p t i fm = h → classifyGo m p l i fm = h := by
  intro h
  induction h with
  | nil =>
    intro l t i fm hm _
    cases l with
    | nil => rfl
    | cons b l' => simp [histMatch] at hm
  | cons e h' ih =>
    intro l t i fm hm hct
    cases l with
    | nil => cases e <;> simp [histMatch] at hm
    | cons b l' =>
      cases t with
      | nil => simp [classifyGo] at hct
      | cons c t' =>
        simp only [classifyGo] at hct
        injection hct with hhead htail
        by_cases hcb : m.any (fun x => x == c) = true
        · rw [if_pos hcb] at hhead htail
          cases e with
          | visible a =>
            simp only [histMatch, Bool.and_eq_true, beq_iff_eq] at hm
            obtain ⟨hab, hm2⟩ := hm
            subst hab
            by_cases hpar : (i % 2 != p) = true
            · rw [if_pos hpar] at hhead
              cases hhead
            · rw [if_neg hpar] at hhead
              by_cases hfm : fm = true
              · rw [if_pos hfm] at hhead
                injection hhead with hca
                rw [hca] at hcb
                simp only [classifyGo]
                rw [if_pos hcb, if_neg hpar, if_pos hfm, if_pos hcb]
                exact congrArg _ (ih l' t' (i + 1) false hm2 htail)
              · rw [if_neg hfm] at hhead
                cases hhead
          | masked a =>
            simp only [histMatch, Bool.and_eq_true, beq_iff_eq] at hm
            obtain ⟨hab, hm2⟩ := hm
            subst hab
            by_cases hpar : (i % 2 != p) = true
            · rw [if_pos hpar] at hhead
              cases hhead
            · rw [if_neg hpar] at hhead
              by_cases hfm : fm = true
              · rw [if_pos hfm] at hhead
                cases hhead
              · rw [if_neg hfm] at hhead
                injection hhead with hca
                rw [hca] at hcb
                simp only [classifyGo]
                rw [if_pos hcb, if_neg hpar, if_neg hfm, if_pos hcb]
                exact congrArg _ (ih l' t' (i + 1) false hm2 htail)
          | invisible =>
            simp only [histMatch, Bool.and_eq_true] at hm
            by_cases hpar : (i % 2 != p) = true
            · rw [if_pos hpar] at hhead
              simp only [classifyGo]
              rw [if_pos hm.1, if_pos hpar, if_pos hm.1]
              exact congrArg _ (ih l' t' (i + 1) false hm.2 htail)
            · rw [if_neg hpar] at hhead
              by_cases hfm : fm = true
              · rw [if_pos hfm] at hhead
                cases hhead
              · rw [if_neg hfm] at hhead
                cases hhead
        · rw [if_neg hcb] at hhead htail
          cases e with
          | visible a =>
            simp only [histMatch, Bool.and_eq_true, beq_iff_eq] at hm
            obtain ⟨hab, hm2⟩ := hm
            subst hab
            injection hhead with hca
            rw [hca] at hcb
            simp only [classifyGo]
            rw [if_neg hcb, if_neg hcb]
            exact congrArg _ (ih l' t' (i + 1) fm hm2 htail)
          | masked a =>
            cases hhead
          | invisible =>
            cases hhead

/-- The classification loop, characterised positionwise: entry `j` of the
full history is `Visible` when not hidden; hidden entries are `Invisible`
for the opponent, and for the observer `Visible` exactly when no entry
before position `j` (by either player) is hidden, `Masked` otherwise. -/
theorem classifyGo_enumFrom (m : List Action) (p : Nat) :
    ∀ (l pre : List Action),
      classifyGo m p l pre.length (!(pre.any (fun b => m.any (fun x => x == b))))
        = (List.enumFrom pre.length l).map (fun q =>
            if !(m.any (fun x => x == q.2)) then Info.visible q.2
            else if q.1 % 2 != p then Info.invisible
            else if ((pre ++ l).take q.1).any (fun b => m.any (fun x => x == b)) then
              Info.masked q.2
            else Info.visible q.2) := by
  intro l
  induction l with
  | nil => intro pre; rfl
  | cons a rest ih =>
    intro pre
    have hflag : (if m.any (fun x => x == a) then false
          else !(pre.any (fun b => m.any (fun x => x == b))))
        = !((pre ++ [a]).any (fun b => m.any (fun x => x == b))) := by
      rw [List.any_append]
      cases hma : m.any (fun x => x == a) <;>
        cases hpre : pre.any (fun b => m.any (fun x => x == b)) <;> simp [hma, hpre]
    have htake : (pre ++ a :: rest).take pre.length = pre :=
      List.take_left pre (a :: rest)
    have hlen1 : (pre ++ [a]).length = pre.length + 1 := by simp
    have hih := ih (pre ++ [a])
    rw [hlen1] at hih
    have hassoc : (pre ++ [a]) ++ rest = pre ++ a :: rest := by simp
    rw [hassoc] at hih
    simp only [classifyGo, List.enumFrom, List.map_cons]
    rw [hflag, hih]
    congr 1
    cases hma : m.any (fun x => x == a) with
    | true =>
      rw [htake]
      cases hpre : pre.any (fun b => m.any (fun x => x == b)) <;> simp [hma, hpre]
    | false => simp [hma]

/-- C4 (corrected): with two masked slots at squares 0 and 1, play the
history `[m0 by P0, m0 by P1, square-2 by P0]`; the observing player P1's
very first hidden action (position 1) is classified `Masked`, not `Visible`
as the claim states, because P0's earlier hidden action already cleared the
global `first_masked_action` flag. -/
theorem visible_history_claim_counterexample :
    ((((MaskedTicTacToe.new [⟨1⟩, ⟨2⟩]).apply_unchecked ⟨1⟩).apply_unchecked
          ⟨1⟩).apply_unchecked ⟨4⟩).visible_history
        = [.invisible, .masked ⟨1⟩, .visible ⟨4⟩] ∧
    claimClassify ((((MaskedTicTacToe.new [⟨1⟩, ⟨2⟩]).apply_unchecked ⟨1⟩).apply_unchecked
          ⟨1⟩).apply_unchecked ⟨4⟩)
        = [.invisible, .visible ⟨1⟩, .visible ⟨4⟩] ∧
    decide (((((MaskedTicTacToe.new [⟨1⟩, ⟨2⟩]).apply_unchecked ⟨1⟩).apply_unchecked
          ⟨1⟩).apply_unchecked ⟨4⟩).visible_history
        = claimClassify ((((MaskedTicTacToe.new [⟨1⟩, ⟨2⟩]).apply_unchecked
          ⟨1⟩).apply_unchecked ⟨1⟩).apply_unchecked ⟨4⟩)) = false := by
  refine ⟨by decide, by decide, by decide⟩

/-- C4 (amended): `visible_history()` classifies every non-hidden entry as
`Visible` and every hidden entry of the opponent as `Invisible`; the
observing player's own hidden entry is `Visible` exactly when *no earlier
entry by either player* is hidden (the `first_masked_action` flag is
global), and `Masked` otherwise. -/
theorem visible_history_amended (s : MaskedTicTacToe) :
    s.visible_history = amendedClassify s := by
  unfold MaskedTicTacToe.visible_history amendedClassify
  have h := classifyGo_enumFrom s.masked s.current_player.index s.history []
  simp only [List.length_nil, List.any_nil, Bool.not_false, List.nil_append] at h
  rw [h]
  rw [List.enum]
  rfl

/-- C5 (corrected counterexample): for the information sequence
`[Visible(square 0)]` with square 0 a masked slot, the superposition holds
exactly one state; replaying its history from genesis reproduces it, but
its `visible_history()` is `[Invisible]`, not the original sequence — the
round-trip fails for an information sequence in which a hidden action of
the *other* player is marked `Visible`. -/
theorem superposition_roundtrip_counterexample :
    superposition (MaskedTicTacToe.new [⟨1⟩, ⟨2⟩]) [.visible ⟨1⟩]
        = [⟨1, 0, [⟨1⟩, ⟨2⟩], 0, [⟨1⟩], ⟨false⟩, .X⟩] ∧
    replay (MaskedTicTacToe.new [⟨1⟩, ⟨2⟩]) [⟨1⟩]
        = ⟨1, 0, [⟨1⟩, ⟨2⟩], 0, [⟨1⟩], ⟨false⟩, .X⟩ ∧
    (⟨1, 0, [⟨1⟩, ⟨2⟩], 0, [⟨1⟩], ⟨false⟩, .X⟩ : MaskedTicTacToe).visible_history
        = [.invisible] ∧
    decide (([Info.invisible] : List (Info Action)) = [.visible ⟨1⟩]) = false := by
  refine ⟨by decide, by decide, by decide, by decide⟩

/-- C5 (amended): the round-trip holds for information sequences that arise
as the `visible_history()` of an observing state whose current player is
parity-consistent with its history length (as any state reached from
genesis is): every member of the superposition of such a sequence replays
from genesis to itself and classifies back to exactly that sequence. -/
theorem superposition_roundtrip (t st : MaskedTicTacToe)
    (hpar : t.current_player.index = t.history.length % 2)
    (hst : st ∈ superposition t.genesis t.visible_history) :
    replay t.genesis st.history = st ∧ st.visible_history = t.visible_history := by
  obtain ⟨hmask, hlen, hidx, hreplay, hmatch⟩ :=
    superposition_mem t.masked t.visible_history st hst
  refine ⟨hreplay, ?_⟩
  unfold MaskedTicTacToe.visible_history
  rw [hmask]
  have hidx2 : st.current_player.index = t.current_player.index := by
    rw [hidx, visible_history_length t, hpar]
  rw [hidx2]
  exact classifyGo_of_histMatch t.masked t.current_player.index t.visible_history
    st.history t.history 0 true hmatch rfl

/-- C3: `MaskedEvaluator::evaluate` is a function of the masked-action
array, the current player and the visible history only: two states agreeing
on these three — whatever their concrete board contents — evaluate
identically (same cache, same action, same fuel). -/
theorem maskedEvaluate_function_of_history
    (fuel : Nat) (c : List ((List (Info Action) × Action) × (Int × Int)))
    (s1 s2 : MaskedTicTacToe) (a : Action)
    (hmask : s1.masked = s2.masked)
    (hcp : s1.current_player = s2.current_player)
    (hvh : s1.visible_history = s2.visible_history) :
    maskedEvaluate fuel c s1 a = maskedEvaluate fuel c s2 a := by
  cases fuel with
  | zero => rfl
  | succ f =>
    have hg : s1.genesis = s2.genesis := by
      unfold MaskedTicTacToe.genesis
      rw [hmask]
    simp only [maskedEvaluate]
    rw [hvh, hcp, hg]

theorem maskedInner_congr
    (r1 r2 : List ((List (Info Action) × Action) × (Int × Int)) → MaskedTicTacToe →
      Action → Option (Except MPanic ((Int × Int) × List ((List (Info Action) × Action) × (Int × Int)))))
    (pns : MaskedTicTacToe)
    (hr : ∀ c oa, r1 c pns oa = r2 c pns oa) :
    ∀ (acts : List Action) (c : List ((List (Info Action) × Action) × (Int × Int))) (my ts : Int),
      maskedInner r1 pns acts c my ts = maskedInner r2 pns acts c my ts := by
  intro acts
  induction acts with
  | nil => intro c my ts; rfl
  | cons oa rest ih =>
    intro c my ts
    simp only [maskedInner, hr]
    cases r2 c pns oa with
    | none => rfl
    | some r =>
      cases r with
      | error e => rfl
      | ok pr =>
        obtain ⟨⟨tt, mt⟩, c1⟩ := pr
        show (match comboStep tt mt my ts with
            | Except.error e => some (Except.error e)
            | Except.ok (my1, ts1) => maskedInner r1 pns rest c1 my1 ts1)
          = (match comboStep tt mt my ts with
            | Except.error e => some (Except.error e)
            | Except.ok (my1, ts1) => maskedInner r2 pns rest c1 my1 ts1)
        cases comboStep tt mt my ts with
        | error e => rfl
        | ok pr2 =>
          obtain ⟨my1, ts1⟩ := pr2
          exact ih c1 my1 ts1

theorem maskedOuter_congr
    (r1 r2 : List ((List (Info Action) × Action) × (Int × Int)) → MaskedTicTacToe →
      Action → Option (Except MPanic ((Int × Int) × List ((List (Info Action) × Action) × (Int × Int)))))
    (cp : TwoPlayer) (a : Action) :
    ∀ (sup : List MaskedTicTacToe),
      (∀ st ∈ sup, ∀ c oa,
        r1 c (st.apply_unchecked a) oa = r2 c (st.apply_unchecked a) oa) →
      ∀ (c : List ((List (Info Action) × Action) × (Int × Int))) (my their : Int),
        maskedOuter r1 cp a sup c my their = maskedOuter r2 cp a sup c my their := by
  intro sup
  induction sup with
  | nil => intro _ c my their; rfl
  | cons st rest ih =>
    intro hr c my their
    have hrest := fun st' hst' => hr st' (List.mem_cons_of_mem _ hst')
    have hst := hr st (List.mem_cons_self _ _)
    simp only [maskedOuter]
    cases hleg : st.is_legal a with
    | false =>
      simp only [hleg, Bool.not_false, if_true]
      exact ih hrest c my their
    | true =>
      simp only [hleg, Bool.not_true, Bool.false_eq_true, if_false]
      cases houtc : (st.apply_unchecked a).outcome with
      | some w =>
        cases w with
        | win p =>
          show (if p = cp then maskedOuter r1 cp a rest c my (-1)
              else some (Except.error MPanic.otherWin))
            = (if p = cp then maskedOuter r2 cp a rest c my (-1)
              else some (Except.error MPanic.otherWin))
          by_cases hp : p = cp
          · simp only [if_pos hp]
            exact ih hrest c my (-1)
          · simp only [if_neg hp]
        | draw => exact ih hrest c (min my 0) (min their 0)
      | none =>
        show (match maskedInner r1 (st.apply_unchecked a)
              (st.apply_unchecked a).legal_actions c my (-1) with
            | none => none
            | some (Except.error e) => some (Except.error e)
            | some (Except.ok ((my1, ts1), c1)) =>
              maskedOuter r1 cp a rest c1 my1 (min their ts1))
          = (match maskedInner r2 (st.apply_unchecked a)
              (st.apply_unchecked a).legal_actions c my (-1) with
            | none => none
            | some (Except.error e) => some (Except.error e)
            | some (Except.ok ((my1, ts1), c1)) =>
              maskedOuter r2 cp a rest c1 my1 (min their ts1))
        rw [maskedInner_congr r1 r2 (st.apply_unchecked a) hst
          (st.apply_unchecked a).legal_actions c my (-1)]
        cases maskedInner r2 (st.apply_unchecked a) (st.apply_unchecked a).legal_actions c my (-1) with
        | none => rfl
        | some r =>
          cases r with
          | error e => rfl
          | ok pr =>
            obtain ⟨⟨my1, ts1⟩, c1⟩ := pr
            exact ih hrest c1 my1 (min their ts1)

/-- C9: `MaskedEvaluator::evaluate` terminates on every input — each
recursive call happens on a state whose history is one entry longer, and
histories beyond 11 plies are cut off — so the fueled model stabilises:
any two fuels that are positive and at least `13 - |visible history|`
produce the same result. -/
theorem maskedEvaluate_fuel_irrelevant :
    ∀ (f1 f2 : Nat) (c : List ((List (Info Action) × Action) × (Int × Int)))
      (s : MaskedTicTacToe) (a : Action),
      1 ≤ f1 → 1 ≤ f2 →
      13 ≤ f1 + s.visible_history.length → 13 ≤ f2 + s.visible_history.length →
      maskedEvaluate f1 c s a = maskedEvaluate f2 c s a := by
  intro f1
  induction f1 with
  | zero => intro f2 c s a h1; exact absurd h1 (by omega)
  | succ g1 ih =>
    intro f2 c s a _ h2 hb1 hb2
    cases f2 with
    | zero => exact absurd h2 (by omega)
    | succ g2 =>
      simp only [maskedEvaluate]
      by_cases hlen : 11 < s.visible_history.length
      · simp only [if_pos hlen]
      · simp only [if_neg hlen]
        cases hfind : cacheFind c (s.visible_history, a) with
        | some ev => rfl
        | none =>
          have hout : maskedOuter (fun c1 s1 a1 => maskedEvaluate g1 c1 s1 a1)
              s.current_player a (superposition s.genesis s.visible_history) c 1 1
              = maskedOuter (fun c1 s1 a1 => maskedEvaluate g2 c1 s1 a1)
                s.current_player a (superposition s.genesis s.visible_history) c 1 1 := by
            apply maskedOuter_congr
            · intro st hst c1 oa
              have hmem := superposition_mem s.masked s.visible_history st hst
              have hlenp : (st.apply_unchecked a).visible_history.length
                  = s.visible_history.length + 1 := by
                rw [visible_history_length, apply_unchecked_history]
                simp [hmem.2.1]
              apply ih g2 c1 (st.apply_unchecked a) oa
              · omega
              · omega
              · rw [hlenp]; omega
              · rw [hlenp]; omega
          rw [hout]

/-! ### The greedy strategy (`src/strategy.rs`) -/

theorem greedyLoop_never_ok {T U E V : Type} (ev : EvalImpl T U E V) (s : T) :
    ∀ (acts : List U) (e : E) (accum : U × V),
      returnsAction (greedyLoop ev s acts e accum) = false := by
  intro acts
  induction acts with
  | nil => intro e accum; rfl
  | cons a rest ih =>
    intro e accum
    simp only [greedyLoop]
    cases ev.evaluate e s a with
    | error err => rfl
    | ok pr =>
      obtain ⟨v, e1⟩ := pr
      dsimp only
      cases ev.pcmp accum.2 v with
      | none => rfl
      | some ord => cases ord <;> exact ih _ _

/-- C6 (code bug): `GreedyStrategy::best_action` never returns the
best-evaluated action — the Rust source ends the comparison loop with
`todo!()` (`strategy.rs` line 62), so whenever the state has legal actions
and every evaluation succeeds and is comparable, the call panics instead of
returning `Ok`.  Concretely: on the empty tic-tac-toe board with the
`RandomEvaluator` (seed 0) the call panics; and in general no invocation of
`best_action` can return `Ok(action)`. -/
theorem greedyBestAction_hits_todo :
    greedyBestAction ticTacToeGame (randomEvaluator BoardState Action) 0
        (BoardState.new .X) = none ∧
    ∀ (T U Q E V : Type) (g : DynGame T U Q) (ev : EvalImpl T U E V) (e : E) (s : T),
      returnsAction (greedyBestAction g ev e s) = false := by
  constructor
  · decide
  · intro T U Q E V g ev e s
    unfold greedyBestAction
    cases g.legalActions s with
    | nil => rfl
    | cons a rest =>
      dsimp only
      cases ev.evaluate e s a with
      | error err => rfl
      | ok pr =>
        obtain ⟨v, e1⟩ := pr
        dsimp only
        exact greedyLoop_never_ok ev s rest e1 (a, v)

/-! ### Concrete witnesses and counterexamples on the tic-tac-toe games -/

/-- Witness for C1 at a concrete near-endgame position: `board0 = 226`,
`board1 = 280`, player 1 to move, action square 2; the reached state is
non-terminal with one legal action, and both sides evaluate to `Draw`. -/
theorem endStateEvaluator_combines_children_by_priority_witness :
    (ticTacToeGame.apply ⟨226, 280, ⟨2, 1⟩, .X⟩ ⟨4⟩ = .ok ⟨226, 284, ⟨2, 0⟩, .X⟩
      ∧ ticTacToeGame.outcome ⟨226, 284, ⟨2, 0⟩, .X⟩ = none
      ∧ ticTacToeGame.legalActions ⟨226, 284, ⟨2, 0⟩, .X⟩ ≠ []) ∧
    eraseCache (endEval ticTacToeGame 2 [] ⟨226, 280, ⟨2, 1⟩, .X⟩ ⟨4⟩)
      = combineByPriority (evalPure ticTacToeGame 1 ⟨226, 284, ⟨2, 0⟩, .X⟩)
          (ticTacToeGame.currentPlayer ⟨226, 284, ⟨2, 0⟩, .X⟩)
          (ticTacToeGame.currentPlayer ⟨226, 280, ⟨2, 1⟩, .X⟩)
          (ticTacToeGame.legalActions ⟨226, 284, ⟨2, 0⟩, .X⟩) false :=
  ⟨⟨by decide, by decide, by decide⟩,
    endStateEvaluator_combines_children_by_priority ticTacToeGame 1 _ ⟨4⟩
      ⟨226, 284, ⟨2, 0⟩, .X⟩ (by decide) (by decide) (by decide)⟩

/-- Witness for C7: a (synthetic) position whose boards overlap so that all
nine squares are covered yet neither side has a line and the draw test
fails: the reached state is non-terminal with no legal action, and
`evaluate` returns `NoLegalActions` naming it. -/
theorem endStateEvaluator_noLegalActions_error_witness :
    (CacheInv ticTacToeGame []
      ∧ ticTacToeGame.apply ⟨226, 286, ⟨2, 0⟩, .X⟩ ⟨1⟩ = .ok ⟨227, 286, ⟨2, 1⟩, .X⟩
      ∧ ticTacToeGame.outcome ⟨227, 286, ⟨2, 1⟩, .X⟩ = none
      ∧ ticTacToeGame.legalActions ⟨227, 286, ⟨2, 1⟩, .X⟩ = []) ∧
    endEval ticTacToeGame 1 [] ⟨226, 286, ⟨2, 0⟩, .X⟩ ⟨1⟩
      = some (.error (.noLegalActions ⟨227, 286, ⟨2, 1⟩, .X⟩)) :=
  ⟨⟨fun e he => absurd he (List.not_mem_nil e), by decide, by decide, by decide⟩,
    endStateEvaluator_noLegalActions_error ticTacToeGame 0 [] _ ⟨1⟩
      ⟨227, 286, ⟨2, 1⟩, .X⟩ (fun e he => absurd he (List.not_mem_nil e))
      (by decide) (by decide) (by decide)⟩

/-- C8 (corrected counterexample): `evaluate` on the position
`(226, 280, player 1)` with action square 2 returns `Ok(Draw)`, but the
`visited` cache afterwards holds only the terminal child — it does *not*
map the non-terminal state reached by the action (`(226, 284, player 0)`)
to the returned outcome. -/
theorem endStateEvaluator_cache_counterexample :
    endEval ticTacToeGame 2 [] ⟨226, 280, ⟨2, 1⟩, .X⟩ ⟨4⟩
      = some (.ok (.draw, [(⟨227, 284, ⟨2, 1⟩, .X⟩, .draw)])) ∧
    ticTacToeGame.apply ⟨226, 280, ⟨2, 1⟩, .X⟩ ⟨4⟩ = .ok ⟨226, 284, ⟨2, 0⟩, .X⟩ ∧
    cacheFind [((⟨227, 284, ⟨2, 1⟩, .X⟩ : BoardState), (WinDraw.draw : WinDraw PlayerId))]
      (⟨226, 284, ⟨2, 0⟩, .X⟩ : BoardState) = none :=
  ⟨by decide, by decide, by decide⟩

/-- Witness for the amended C8 at the same position: the cache invariant
and growth, the key-functionality, the terminal-only caching and the
identical second call, all instantiated concretely. -/
theorem endStateEvaluator_cache_terminal_only_witness :
    (CacheInv ticTacToeGame [] ∧
      endEval ticTacToeGame 2 [] ⟨226, 280, ⟨2, 1⟩, .X⟩ ⟨4⟩
        = some (.ok (.draw, [(⟨227, 284, ⟨2, 1⟩, .X⟩, .draw)]))) ∧
    (CacheInv ticTacToeGame [(⟨227, 284, ⟨2, 1⟩, .X⟩, .draw)] ∧
     ([] : List (BoardState × WinDraw PlayerId)) ⊆ [(⟨227, 284, ⟨2, 1⟩, .X⟩, .draw)] ∧
     (∀ (k : BoardState) (v1 v2 : WinDraw PlayerId),
        (k, v1) ∈ [((⟨227, 284, ⟨2, 1⟩, .X⟩ : BoardState), (WinDraw.draw : WinDraw PlayerId))] →
        (k, v2) ∈ [((⟨227, 284, ⟨2, 1⟩, .X⟩ : BoardState), (WinDraw.draw : WinDraw PlayerId))] →
        v1 = v2) ∧
     (∀ ns o2, ticTacToeGame.apply ⟨226, 280, ⟨2, 1⟩, .X⟩ ⟨4⟩ = .ok ns →
        ticTacToeGame.outcome ns = some o2 →
        cacheFind [((⟨227, 284, ⟨2, 1⟩, .X⟩ : BoardState), (WinDraw.draw : WinDraw PlayerId))]
          ns = some o2) ∧
     eraseCache (endEval ticTacToeGame 2 [(⟨227, 284, ⟨2, 1⟩, .X⟩, .draw)]
        ⟨226, 280, ⟨2, 1⟩, .X⟩ ⟨4⟩) = some (.ok .draw)) :=
  ⟨⟨fun e he => absurd he (List.not_mem_nil e), by decide⟩,
    endStateEvaluator_cache_terminal_only ticTacToeGame 2 [] ⟨226, 280, ⟨2, 1⟩, .X⟩ ⟨4⟩
      .draw [(⟨227, 284, ⟨2, 1⟩, .X⟩, .draw)]
      (fun e he => absurd he (List.not_mem_nil e)) (by decide)⟩

/-- Witness for C3 at two concretely different states (one where player 1's
hidden attempt at square 0 silently failed, one where it claimed square 1)
that share the masked array, the current player and the visible history. -/
theorem maskedEvaluate_function_of_history_witness :
    ((⟨1, 0, [⟨1⟩, ⟨2⟩], 1, [⟨1⟩, ⟨1⟩], ⟨true⟩, .X⟩ : MaskedTicTacToe).masked
        = (⟨1, 2, [⟨1⟩, ⟨2⟩], 0, [⟨1⟩, ⟨2⟩], ⟨true⟩, .X⟩ : MaskedTicTacToe).masked
      ∧ (⟨1, 0, [⟨1⟩, ⟨2⟩], 1, [⟨1⟩, ⟨1⟩], ⟨true⟩, .X⟩ : MaskedTicTacToe).current_player
        = (⟨1, 2, [⟨1⟩, ⟨2⟩], 0, [⟨1⟩, ⟨2⟩], ⟨true⟩, .X⟩ : MaskedTicTacToe).current_player
      ∧ (⟨1, 0, [⟨1⟩, ⟨2⟩], 1, [⟨1⟩, ⟨1⟩], ⟨true⟩, .X⟩ : MaskedTicTacToe).visible_history
        = (⟨1, 2, [⟨1⟩, ⟨2⟩], 0, [⟨1⟩, ⟨2⟩], ⟨true⟩, .X⟩ : MaskedTicTacToe).visible_history
      ∧ decide ((⟨1, 0, [⟨1⟩, ⟨2⟩], 1, [⟨1⟩, ⟨1⟩], ⟨true⟩, .X⟩ : MaskedTicTacToe)
        = ⟨1, 2, [⟨1⟩, ⟨2⟩], 0, [⟨1⟩, ⟨2⟩], ⟨true⟩, .X⟩) = false) ∧
    maskedEvaluate 5 [] ⟨1, 0, [⟨1⟩, ⟨2⟩], 1, [⟨1⟩, ⟨1⟩], ⟨true⟩, .X⟩ ⟨4⟩
      = maskedEvaluate 5 [] ⟨1, 2, [⟨1⟩, ⟨2⟩], 0, [⟨1⟩, ⟨2⟩], ⟨true⟩, .X⟩ ⟨4⟩ :=
  ⟨⟨by decide, by decide, by decide, by decide⟩,
    maskedEvaluate_function_of_history 5 [] _ _ ⟨4⟩ (by decide) (by decide) (by decide)⟩

/-- Witness for the amended C5: the state after `[m0 by P0, square-2 by
P1]` observes `[Visible m0, Visible square-2]`, whose superposition is that
very state; the round trip holds for it. -/
theorem superposition_roundtrip_witness :
    ((⟨1, 4, [⟨1⟩, ⟨2⟩], 0, [⟨1⟩, ⟨4⟩], ⟨true⟩, .X⟩ : MaskedTicTacToe).current_player.index
        = (⟨1, 4, [⟨1⟩, ⟨2⟩], 0, [⟨1⟩, ⟨4⟩], ⟨true⟩, .X⟩ : MaskedTicTacToe).history.length % 2
      ∧ (⟨1, 4, [⟨1⟩, ⟨2⟩], 0, [⟨1⟩, ⟨4⟩], ⟨true⟩, .X⟩ : MaskedTicTacToe)
          ∈ superposition
              (⟨1, 4, [⟨1⟩, ⟨2⟩], 0, [⟨1⟩, ⟨4⟩], ⟨true⟩, .X⟩ : MaskedTicTacToe).genesis
              (⟨1, 4, [⟨1⟩, ⟨2⟩], 0, [⟨1⟩, ⟨4⟩], ⟨true⟩, .X⟩ : MaskedTicTacToe).visible_history) ∧
    (replay (⟨1, 4, [⟨1⟩, ⟨2⟩], 0, [⟨1⟩, ⟨4⟩], ⟨true⟩, .X⟩ : MaskedTicTacToe).genesis
        (⟨1, 4, [⟨1⟩, ⟨2⟩], 0, [⟨1⟩, ⟨4⟩], ⟨true⟩, .X⟩ : MaskedTicTacToe).history
        = ⟨1, 4, [⟨1⟩, ⟨2⟩], 0, [⟨1⟩, ⟨4⟩], ⟨true⟩, .X⟩
      ∧ (⟨1, 4, [⟨1⟩, ⟨2⟩], 0, [⟨1⟩, ⟨4⟩], ⟨true⟩, .X⟩ : MaskedTicTacToe).visible_history
        = (⟨1, 4, [⟨1⟩, ⟨2⟩], 0, [⟨1⟩, ⟨4⟩], ⟨true⟩, .X⟩ : MaskedTicTacToe).visible_history) :=
  ⟨⟨by decide, by decide⟩,
    superposition_roundtrip _ _ (by decide) (by decide)⟩

/-- Witness for C9 at the genesis state (empty visible history): fuels 13
and 14 agree. -/
theorem maskedEvaluate_fuel_irrelevant_witness :
    (1 ≤ 13 ∧ 1 ≤ 14
      ∧ 13 ≤ 13 + (MaskedTicTacToe.new [⟨1⟩, ⟨2⟩]).visible_history.length
      ∧ 13 ≤ 14 + (MaskedTicTacToe.new [⟨1⟩, ⟨2⟩]).visible_history.length) ∧
    maskedEvaluate 13 [] (MaskedTicTacToe.new [⟨1⟩, ⟨2⟩]) ⟨16⟩
      = maskedEvaluate 14 [] (MaskedTicTacToe.new [⟨1⟩, ⟨2⟩]) ⟨16⟩ :=
  ⟨⟨by decide, by decide, by decide, by decide⟩,
    maskedEvaluate_fuel_irrelevant 13 14 [] _ ⟨16⟩ (by decide) (by decide)
      (by decide) (by decide)⟩

end Reinfors
